import Mathlib

/-!
Verification of the contract web-application container codec in
`crates/core/src/server/app_packaging.rs`.

The Rust code is shallowly embedded: byte buffers become `List UInt8`,
machine integers become `Nat` with explicit `% 2^64` where the code casts,
fallible operations return `Except WebContractError`.  The external crates
`xz2` (XZ compression) and `tar` (archive reading) are not part of this
repository; operations of theirs that the codec calls are taken as
parameters of the corresponding definitions, so the theorems quantify over
every possible behaviour of those collaborators.
-/

/-- Mirrors the Rust `enum WebContractError` in `app_packaging.rs`:
`UnpackingError(anyhow::Error)`, `StoringError(std::io::Error)`,
`FileNotFound(String)`.  The wrapped causes are modelled by their message
strings. -/
inductive WebContractError where
  | UnpackingError (msg : String)
  | StoringError (msg : String)
  | FileNotFound (path : String)
deriving DecidableEq, Repr

/-- Mirrors the Rust `struct WebApp { metadata: Vec<u8>, web: Vec<u8> }`. -/
structure WebApp where
  metadata : List UInt8
  web : List UInt8
deriving DecidableEq, Repr

/-- Mirrors the Rust constant `MAX_METADATA_SIZE: u64 = 1024` in
`TryFrom<&[u8]> for WebApp`. -/
def MAX_METADATA_SIZE : Nat := 1024

/-- Mirrors the Rust constant `MAX_WEB_SIZE: u64 = 1024 * 1024 * 100` in
`TryFrom<&[u8]> for WebApp`. -/
def MAX_WEB_SIZE : Nat := 1024 * 1024 * 100

/-- Big-endian byte strings: `beBytes k n` is the `k`-byte big-endian encoding of `n % 256^k`,
most significant byte first. -/
def beBytes : Nat → Nat → List UInt8
  | 0, _ => []
  | k + 1, n => beBytes k (n / 256) ++ [UInt8.ofNat (n % 256)]

/-- Mirrors `WriteBytesExt::write_u64::<BigEndian>`: the 8-byte big-endian
encoding of `n % 2^64` (the Rust call receives a `u64`, here the reduction
of the `usize` length). -/
def u64beEncode (n : Nat) : List UInt8 := beBytes 8 n

/-- Mirrors `ReadBytesExt::read_u64::<BigEndian>` applied to an 8-byte
buffer: combine the bytes big-endian, most significant first. -/
def u64beDecode (bs : List UInt8) : Nat :=
  bs.foldl (fun acc b => acc * 256 + b.toNat) 0

/-- Mirrors `Cursor::read_exact` for `n` bytes (and `read_u64` when
`n = 8`): succeed with the first `n` bytes and the remaining cursor
contents when at least `n` bytes remain, fail otherwise. -/
def readBytes (s : List UInt8) (n : Nat) : Option (List UInt8 × List UInt8) :=
  if n ≤ s.length then some (s.take n, s.drop n) else none

/-- The error produced when a `read_u64`/`read_exact` runs past the end of
the buffer (the message of `std::io::ErrorKind::UnexpectedEof` from
`read_exact`), wrapped as in the source. -/
def eofErr : WebContractError :=
  .UnpackingError "failed to fill whole buffer"

/-- The error raised when the declared metadata length `n` exceeds
`MAX_METADATA_SIZE`. -/
def metaCapErr (n : Nat) : WebContractError :=
  .UnpackingError ("Exceeded metadata size of 1kB: " ++ toString n ++ " bytes")

/-- The error raised when the declared web length `n` exceeds
`MAX_WEB_SIZE`. -/
def webCapErr (n : Nat) : WebContractError :=
  .UnpackingError ("Exceeded packed web size of 100MB: " ++ toString n ++ " bytes")

/-- Mirrors `WebApp::pack`: write the metadata length as big-endian `u64`,
the metadata bytes, the web length as big-endian `u64`, the web bytes.
The Rust function returns `std::io::Result<Vec<u8>>`, but every write goes
to an in-memory `Vec<u8>` whose `Write` impl is infallible, so it always
returns `Ok`; the model is therefore total. -/
def pack (w : WebApp) : List UInt8 :=
  u64beEncode w.metadata.length ++ w.metadata
    ++ u64beEncode w.web.length ++ w.web

/-- Mirrors `impl TryFrom<&[u8]> for WebApp`: read the 8-byte big-endian
metadata length, reject if it exceeds `MAX_METADATA_SIZE`, read that many
metadata bytes, read the 8-byte big-endian web length, reject if it exceeds
`MAX_WEB_SIZE`, read that many web bytes.  Every failure is wrapped as
`UnpackingError`, exactly as in the source; a failed `read_exact` in Rust
reports `failed to fill whole buffer`, reproduced here. -/
def tryFrom (state : List UInt8) : Except WebContractError WebApp :=
  match readBytes state 8 with
  | none => .error eofErr
  | some (msBytes, s1) =>
    let metadata_size := u64beDecode msBytes
    if metadata_size > MAX_METADATA_SIZE then
      .error (metaCapErr metadata_size)
    else
      match readBytes s1 metadata_size with
      | none => .error eofErr
      | some (metadata, s2) =>
        match readBytes s2 8 with
        | none => .error eofErr
        | some (wsBytes, s3) =>
          let web_size := u64beDecode wsBytes
          if web_size > MAX_WEB_SIZE then
            .error (webCapErr web_size)
          else
            match readBytes s3 web_size with
            | none => .error eofErr
            | some (web, _) => .ok ⟨metadata, web⟩

/-- True exactly when the parse result is a format (`UnpackingError`)
failure. -/
def isUnpackingErr (r : Except WebContractError WebApp) : Bool :=
  match r with
  | .error (.UnpackingError _) => true
  | _ => false

-- Basic facts about the byte-level primitives.

theorem beBytes_length (k n : Nat) : (beBytes k n).length = k := by
  induction k generalizing n with
  | zero => simp [beBytes]
  | succ k ih => simp [beBytes, ih]

theorem u64beEncode_length (n : Nat) : (u64beEncode n).length = 8 :=
  beBytes_length 8 n

theorem foldl_beBytes (k : Nat) :
    ∀ n acc, (beBytes k n).foldl (fun acc b => acc * 256 + b.toNat) acc
      = acc * 256 ^ k + n % 256 ^ k := by
  induction k with
  | zero => intro n acc; simp [beBytes, Nat.mod_one]
  | succ k ih =>
    intro n acc
    have hmod : (UInt8.ofNat (n % 256)).toNat = n % 256 := by
      have h : (UInt8.ofNat (n % 256)).toNat = n % 256 % 256 := rfl
      simp [h, Nat.mod_mod_of_dvd]
    have hsplit : n % (256 * 256 ^ k) = n % 256 + 256 * (n / 256 % 256 ^ k) :=
      Nat.mod_mul
    simp only [beBytes, List.foldl_append, List.foldl_cons, List.foldl_nil, ih, hmod]
    have hpow : (256 : Nat) ^ (k + 1) = 256 * 256 ^ k := by ring
    rw [hpow, hsplit]
    ring

theorem u64beDecode_encode (n : Nat) :
    u64beDecode (u64beEncode n) = n % 2 ^ 64 := by
  have h : (256 : Nat) ^ 8 = 2 ^ 64 := by norm_num
  simpa [u64beDecode, u64beEncode, h] using foldl_beBytes 8 n 0

theorem u64beDecode_encode_of_lt {n : Nat} (h : n < 2 ^ 64) :
    u64beDecode (u64beEncode n) = n := by
  rw [u64beDecode_encode, Nat.mod_eq_of_lt h]

theorem readBytes_append_left {a : List UInt8} (b : List UInt8) :
    readBytes (a ++ b) a.length = some (a, b) := by
  simp [readBytes]

theorem readBytes_all (a : List UInt8) :
    readBytes a a.length = some (a, []) := by
  simp [readBytes]

theorem readBytes_append {s t a b : List UInt8} {n : Nat}
    (h : readBytes s n = some (a, b)) :
    readBytes (s ++ t) n = some (a, b ++ t) := by
  unfold readBytes at h ⊢
  by_cases hle : n ≤ s.length
  · simp only [hle, if_pos] at h
    obtain ⟨ha, hb⟩ := Prod.mk.injEq .. ▸ Option.some.injEq .. ▸ h
    have hle' : n ≤ (s ++ t).length := by simp; omega
    simp only [hle', if_pos, Option.some.injEq, Prod.mk.injEq]
    constructor
    · rw [List.take_append_of_le_length hle]
      exact ha ▸ rfl
    · rw [List.drop_append_of_le_length hle]
      exact hb ▸ rfl
  · simp [hle] at h

-- The central round-trip lemma: parsing the buffer produced by `pack`
-- recovers both fields whenever they respect the two size caps.

theorem tryFrom_pack (m w : List UInt8) (hm : m.length ≤ MAX_METADATA_SIZE)
    (hw : w.length ≤ MAX_WEB_SIZE) :
    tryFrom (pack ⟨m, w⟩) = .ok ⟨m, w⟩ := by
  have hm64 : m.length < 2 ^ 64 := by
    have h : MAX_METADATA_SIZE < 2 ^ 64 := by norm_num [MAX_METADATA_SIZE]
    omega
  have hw64 : w.length < 2 ^ 64 := by
    have h : MAX_WEB_SIZE < 2 ^ 64 := by norm_num [MAX_WEB_SIZE]
    omega
  have hpack : pack ⟨m, w⟩
      = u64beEncode m.length ++ (m ++ (u64beEncode w.length ++ w)) := by
    simp [pack]
  have e1 : readBytes (pack ⟨m, w⟩) 8
      = some (u64beEncode m.length, m ++ (u64beEncode w.length ++ w)) := by
    rw [hpack]
    have h := readBytes_append_left (a := u64beEncode m.length)
      (m ++ (u64beEncode w.length ++ w))
    rwa [u64beEncode_length] at h
  have e2 : readBytes (m ++ (u64beEncode w.length ++ w)) m.length
      = some (m, u64beEncode w.length ++ w) := readBytes_append_left _
  have e3 : readBytes (u64beEncode w.length ++ w) 8
      = some (u64beEncode w.length, w) := by
    have h := readBytes_append_left (a := u64beEncode w.length) w
    rwa [u64beEncode_length] at h
  have hmc : ¬ (m.length > MAX_METADATA_SIZE) := by omega
  have hwc : ¬ (w.length > MAX_WEB_SIZE) := by omega
  simp only [tryFrom, e1, u64beDecode_encode_of_lt hm64, hmc, if_false, e2,
    e3, u64beDecode_encode_of_lt hw64, hwc, readBytes_all w]

-- Trailing bytes after a successfully parsed envelope are ignored.

theorem tryFrom_append {state : List UInt8} {app : WebApp} (extra : List UInt8)
    (h : tryFrom state = .ok app) :
    tryFrom (state ++ extra) = .ok app := by
  unfold tryFrom at h ⊢
  cases h8 : readBytes state 8 with
  | none => rw [h8] at h; exact absurd h (by simp)
  | some p1 =>
    obtain ⟨msBytes, s1⟩ := p1
    rw [h8] at h
    rw [readBytes_append h8]
    simp only at h ⊢
    by_cases hc1 : u64beDecode msBytes > MAX_METADATA_SIZE
    · rw [if_pos hc1] at h; exact absurd h (by simp)
    · rw [if_neg hc1] at h ⊢
      cases hm : readBytes s1 (u64beDecode msBytes) with
      | none => rw [hm] at h; exact absurd h (by simp)
      | some p2 =>
        obtain ⟨metadata, s2⟩ := p2
        rw [hm] at h
        rw [readBytes_append hm]
        simp only at h ⊢
        cases hw8 : readBytes s2 8 with
        | none => rw [hw8] at h; exact absurd h (by simp)
        | some p3 =>
          obtain ⟨wsBytes, s3⟩ := p3
          rw [hw8] at h
          rw [readBytes_append hw8]
          simp only at h ⊢
          by_cases hc2 : u64beDecode wsBytes > MAX_WEB_SIZE
          · rw [if_pos hc2] at h; exact absurd h (by simp)
          · rw [if_neg hc2] at h ⊢
            cases hwb : readBytes s3 (u64beDecode wsBytes) with
            | none => rw [hwb] at h; exact absurd h (by simp)
            | some p4 =>
              obtain ⟨web, s4⟩ := p4
              rw [hwb] at h
              rw [readBytes_append hwb]
              exact h

-- Archive extraction.  `XzDecoder` and `tar::Archive` come from the
-- external `xz2` and `tar` crates, outside this repository; a decoder is
-- therefore an arbitrary function from the compressed bytes to either a
-- failure message (the archive cannot be read) or the ordered list of its
-- entries, and the theorems below hold for every such function.

/-- An archive entry as observed by the loop in `WebApp::get_file`:
`path` is `entry.path().ok()` rendered by `to_string_lossy` (`none` when
`path()` failed, in which case the entry never matches), `content` is the
result of `read_to_end` on the entry. -/
structure ArchiveEntry where
  path : Option String
  content : List UInt8
deriving DecidableEq, Repr

/-- The scan of `WebApp::get_file`: walk the entries in archive order and
return the first whose path compares equal to the requested path, mirroring
`e.path().ok().filter(|p| p.to_string_lossy() == path).is_some()`. -/
def findEntry (path : String) : List ArchiveEntry → Option ArchiveEntry
  | [] => none
  | e :: es => if e.path = some path then some e else findEntry path es

/-- Mirrors `WebApp::get_file` over an abstract archive decoder `dec`
(standing for `decode_web`, i.e. a fresh `Archive<XzDecoder<&[u8]>>` built
from `self.web` each call, with its entry enumeration and per-entry reads):
scan the entries in order and return the content of the first entry whose
path matches, `FileNotFound path` when none does, and `UnpackingError`
when the bytes cannot be read as a compressed archive.  The Rust method
takes `&mut self` but assigns neither field, so the model returns the
resulting `WebApp` state unchanged alongside the result. -/
def get_file (dec : List UInt8 → Except String (List ArchiveEntry))
    (w : WebApp) (path : String) :
    Except WebContractError (List UInt8) × WebApp :=
  match dec w.web with
  | .error e => (.error (.UnpackingError e), w)
  | .ok entries =>
    match findEntry path entries with
    | some e => (.ok e.content, w)
    | none => (.error (.FileNotFound path), w)

/-- Mirrors `WebApp::unpack` over an abstract filesystem extraction
`unpackFS` (standing for `tar::Archive::unpack`, which pulls from the fresh
decoder over `self.web` and writes every entry under `dst`): any failure is
wrapped as `StoringError`, exactly as
`decoded_web.unpack(dst).map_err(WebContractError::StoringError)`.
Like `get_file`, the method takes `&mut self` but assigns neither field. -/
def unpackApp (unpackFS : List UInt8 → String → Except String Unit)
    (w : WebApp) (dst : String) :
    Except WebContractError Unit × WebApp :=
  match unpackFS w.web dst with
  | .error e => (.error (.StoringError e), w)
  | .ok _ => (.ok (), w)

-- Facts about the extraction operations.

theorem findEntry_first (p : String) (e : ArchiveEntry) :
    ∀ pre post, (∀ x ∈ pre, x.path ≠ some p) → e.path = some p →
      findEntry p (pre ++ e :: post) = some e := by
  intro pre post hpre he
  induction pre with
  | nil => simp [findEntry, he]
  | cons x xs ih =>
    have hx : x.path ≠ some p := hpre x (by simp)
    simp only [List.cons_append, findEntry, if_neg hx]
    exact ih fun y hy => hpre y (by simp [hy])

theorem findEntry_none (p : String) :
    ∀ l : List ArchiveEntry, (∀ x ∈ l, x.path ≠ some p) →
      findEntry p l = none := by
  intro l hl
  induction l with
  | nil => rfl
  | cons x xs ih =>
    have hx : x.path ≠ some p := hl x (by simp)
    simp only [findEntry, if_neg hx]
    exact ih fun y hy => hl y (by simp [hy])

theorem get_file_state (dec : List UInt8 → Except String (List ArchiveEntry))
    (w : WebApp) (p : String) : (get_file dec w p).2 = w := by
  unfold get_file
  cases dec w.web with
  | error e => rfl
  | ok entries =>
    dsimp only
    cases findEntry p entries <;> rfl

theorem unpackApp_state (fs : List UInt8 → String → Except String Unit)
    (w : WebApp) (dst : String) : (unpackApp fs w dst).2 = w := by
  unfold unpackApp
  cases fs w.web dst <;> rfl

theorem readBytes_some_inv {s a b : List UInt8} {n : Nat}
    (h : readBytes s n = some (a, b)) :
    n ≤ s.length ∧ a = s.take n ∧ b = s.drop n := by
  unfold readBytes at h
  by_cases hle : n ≤ s.length
  · simp only [hle, if_pos, Option.some.injEq, Prod.mk.injEq] at h
    exact ⟨hle, h.1.symm, h.2.symm⟩
  · simp [hle] at h

theorem tryFrom_meta_cap (state : List UInt8) (h8 : 8 ≤ state.length)
    (hgt : MAX_METADATA_SIZE < u64beDecode (state.take 8)) :
    tryFrom state = .error (metaCapErr (u64beDecode (state.take 8))) := by
  have e1 : readBytes state 8 = some (state.take 8, state.drop 8) := by
    simp [readBytes, h8]
  simp only [tryFrom, e1]
  rw [if_pos hgt]

theorem tryFrom_web_cap (state : List UInt8)
    (h8 : 8 ≤ state.length)
    (hms : u64beDecode (state.take 8) ≤ MAX_METADATA_SIZE)
    (hlen : 8 + u64beDecode (state.take 8) + 8 ≤ state.length)
    (hgt : MAX_WEB_SIZE
      < u64beDecode (((state.drop 8).drop (u64beDecode (state.take 8))).take 8)) :
    tryFrom state = .error (webCapErr
      (u64beDecode (((state.drop 8).drop (u64beDecode (state.take 8))).take 8))) := by
  have e1 : readBytes state 8 = some (state.take 8, state.drop 8) := by
    simp [readBytes, h8]
  have e2 : readBytes (state.drop 8) (u64beDecode (state.take 8))
      = some ((state.drop 8).take (u64beDecode (state.take 8)),
              (state.drop 8).drop (u64beDecode (state.take 8))) := by
    simp only [readBytes, List.length_drop]
    rw [if_pos (by omega)]
  have e3 : readBytes ((state.drop 8).drop (u64beDecode (state.take 8))) 8
      = some (((state.drop 8).drop (u64beDecode (state.take 8))).take 8,
              ((state.drop 8).drop (u64beDecode (state.take 8))).drop 8) := by
    simp only [readBytes, List.length_drop]
    rw [if_pos (by omega)]
  simp only [tryFrom, e1, e2, e3]
  rw [if_neg (by omega), if_pos hgt]

theorem tryFrom_trunc_at_metalen (state : List UInt8) (h : state.length < 8) :
    tryFrom state = .error eofErr := by
  have e1 : readBytes state 8 = none := by
    simp only [readBytes]; rw [if_neg (by omega)]
  simp only [tryFrom, e1]

theorem tryFrom_trunc_at_meta (state : List UInt8) (h8 : 8 ≤ state.length)
    (hms : u64beDecode (state.take 8) ≤ MAX_METADATA_SIZE)
    (hlen : state.length < 8 + u64beDecode (state.take 8)) :
    tryFrom state = .error eofErr := by
  have e1 : readBytes state 8 = some (state.take 8, state.drop 8) := by
    simp [readBytes, h8]
  have e2 : readBytes (state.drop 8) (u64beDecode (state.take 8)) = none := by
    simp only [readBytes, List.length_drop]
    rw [if_neg (by omega)]
  simp only [tryFrom, e1]
  rw [if_neg (by omega)]
  simp only [e2]

theorem tryFrom_trunc_at_weblen (state : List UInt8) (h8 : 8 ≤ state.length)
    (hms : u64beDecode (state.take 8) ≤ MAX_METADATA_SIZE)
    (hlen1 : 8 + u64beDecode (state.take 8) ≤ state.length)
    (hlen2 : state.length < 8 + u64beDecode (state.take 8) + 8) :
    tryFrom state = .error eofErr := by
  have e1 : readBytes state 8 = some (state.take 8, state.drop 8) := by
    simp [readBytes, h8]
  have e2 : readBytes (state.drop 8) (u64beDecode (state.take 8))
      = some ((state.drop 8).take (u64beDecode (state.take 8)),
              (state.drop 8).drop (u64beDecode (state.take 8))) := by
    simp only [readBytes, List.length_drop]
    rw [if_pos (by omega)]
  have e3 : readBytes ((state.drop 8).drop (u64beDecode (state.take 8))) 8 = none := by
    simp only [readBytes, List.length_drop]
    rw [if_neg (by omega)]
  simp only [tryFrom, e1, e2, e3]
  rw [if_neg (by omega)]

theorem tryFrom_trunc_at_web (state : List UInt8) (h8 : 8 ≤ state.length)
    (hms : u64beDecode (state.take 8) ≤ MAX_METADATA_SIZE)
    (hlen1 : 8 + u64beDecode (state.take 8) + 8 ≤ state.length)
    (hws : u64beDecode (((state.drop 8).drop (u64beDecode (state.take 8))).take 8)
      ≤ MAX_WEB_SIZE)
    (hlen2 : state.length < 8 + u64beDecode (state.take 8) + 8
      + u64beDecode (((state.drop 8).drop (u64beDecode (state.take 8))).take 8)) :
    tryFrom state = .error eofErr := by
  have e1 : readBytes state 8 = some (state.take 8, state.drop 8) := by
    simp [readBytes, h8]
  have e2 : readBytes (state.drop 8) (u64beDecode (state.take 8))
      = some ((state.drop 8).take (u64beDecode (state.take 8)),
              (state.drop 8).drop (u64beDecode (state.take 8))) := by
    simp only [readBytes, List.length_drop]
    rw [if_pos (by omega)]
  have e3 : readBytes ((state.drop 8).drop (u64beDecode (state.take 8))) 8
      = some (((state.drop 8).drop (u64beDecode (state.take 8))).take 8,
              ((state.drop 8).drop (u64beDecode (state.take 8))).drop 8) := by
    simp only [readBytes, List.length_drop]
    rw [if_pos (by omega)]
  have e4 : readBytes (((state.drop 8).drop (u64beDecode (state.take 8))).drop 8)
      (u64beDecode (((state.drop 8).drop (u64beDecode (state.take 8))).take 8))
      = none := by
    simp only [readBytes, List.length_drop]
    rw [if_neg (by omega)]
  simp only [tryFrom, e1, e2, e3, e4]
  rw [if_neg (by omega), if_neg (by omega)]

theorem tryFrom_ok_inv {state : List UInt8} {app : WebApp}
    (h : tryFrom state = .ok app) :
    app.metadata = (state.drop 8).take (u64beDecode (state.take 8))
  ∧ app.web = (((state.drop 8).drop (u64beDecode (state.take 8))).drop 8).take
      (u64beDecode (((state.drop 8).drop (u64beDecode (state.take 8))).take 8)) := by
  unfold tryFrom at h
  cases h1 : readBytes state 8 with
  | none => rw [h1] at h; exact absurd h (by simp)
  | some p1 =>
    obtain ⟨msBytes, s1⟩ := p1
    rw [h1] at h
    obtain ⟨hle1, ha1, hb1⟩ := readBytes_some_inv h1
    simp only at h
    by_cases hc1 : u64beDecode msBytes > MAX_METADATA_SIZE
    · rw [if_pos hc1] at h; exact absurd h (by simp)
    · rw [if_neg hc1] at h
      cases h2 : readBytes s1 (u64beDecode msBytes) with
      | none => rw [h2] at h; exact absurd h (by simp)
      | some p2 =>
        obtain ⟨metadata, s2⟩ := p2
        rw [h2] at h
        obtain ⟨hle2, ha2, hb2⟩ := readBytes_some_inv h2
        simp only at h
        cases h3 : readBytes s2 8 with
        | none => rw [h3] at h; exact absurd h (by simp)
        | some p3 =>
          obtain ⟨wsBytes, s3⟩ := p3
          rw [h3] at h
          obtain ⟨hle3, ha3, hb3⟩ := readBytes_some_inv h3
          simp only at h
          by_cases hc2 : u64beDecode wsBytes > MAX_WEB_SIZE
          · rw [if_pos hc2] at h; exact absurd h (by simp)
          · rw [if_neg hc2] at h
            cases h4 : readBytes s3 (u64beDecode wsBytes) with
            | none => rw [h4] at h; exact absurd h (by simp)
            | some p4 =>
              obtain ⟨web, s4⟩ := p4
              rw [h4] at h
              obtain ⟨hle4, ha4, hb4⟩ := readBytes_some_inv h4
              simp only [Except.ok.injEq] at h
              subst h
              subst ha1 hb1 ha2 hb2 ha3 hb3 ha4
              exact ⟨rfl, rfl⟩

instance : DecidableEq (Except WebContractError WebApp) := fun a b =>
  match a, b with
  | .error e1, .error e2 =>
    if h : e1 = e2 then .isTrue (by rw [h]) else .isFalse (by simp [h])
  | .ok v1, .ok v2 =>
    if h : v1 = v2 then .isTrue (by rw [h]) else .isFalse (by simp [h])
  | .error _, .ok _ => .isFalse (by simp)
  | .ok _, .error _ => .isFalse (by simp)

/-- C1: for every metadata `m` with `len(m) ≤ 1024` and every web byte
sequence `w` with `len(w) ≤ 104857600`, parsing (`try_from`) the buffer
produced by `pack` on `WebApp { metadata := m, web := w }` succeeds and
yields a `WebApp` whose fields are byte-identical to `m` and `w`. -/
theorem claim1_pack_parse_roundtrip (m w : List UInt8)
    (hm : m.length ≤ 1024) (hw : w.length ≤ 104857600) :
    tryFrom (pack ⟨m, w⟩) = .ok ⟨m, w⟩ :=
  tryFrom_pack m w (by unfold MAX_METADATA_SIZE; omega)
    (by unfold MAX_WEB_SIZE; omega)

theorem claim1_witness :
    ([1, 2] : List UInt8).length ≤ 1024
  ∧ ([3] : List UInt8).length ≤ 104857600
  ∧ tryFrom (pack ⟨[1, 2], [3]⟩) = .ok ⟨[1, 2], [3]⟩ :=
  ⟨by decide, by decide,
    claim1_pack_parse_roundtrip [1, 2] [3] (by decide) (by decide)⟩

/-- C2: `try_from` enforces both size caps strictly and before consuming
the corresponding payload: a declared metadata length above 1024 fails with
a format error regardless of the remaining buffer contents; a declared web
length above 104857600 fails regardless of whether that many bytes follow;
a declared length exactly equal to either cap is not rejected by the cap
check. -/
theorem claim2_cap_enforcement :
    (∀ state : List UInt8, 8 ≤ state.length →
      MAX_METADATA_SIZE < u64beDecode (state.take 8) →
      tryFrom state = .error (metaCapErr (u64beDecode (state.take 8))))
  ∧ (∀ state : List UInt8, 8 ≤ state.length →
      u64beDecode (state.take 8) ≤ MAX_METADATA_SIZE →
      8 + u64beDecode (state.take 8) + 8 ≤ state.length →
      MAX_WEB_SIZE
        < u64beDecode (((state.drop 8).drop (u64beDecode (state.take 8))).take 8) →
      tryFrom state = .error (webCapErr
        (u64beDecode (((state.drop 8).drop (u64beDecode (state.take 8))).take 8))))
  ∧ (∀ m w : List UInt8, m.length = MAX_METADATA_SIZE → w.length ≤ MAX_WEB_SIZE →
      tryFrom (pack ⟨m, w⟩) = .ok ⟨m, w⟩)
  ∧ (∀ m w : List UInt8, m.length ≤ MAX_METADATA_SIZE → w.length = MAX_WEB_SIZE →
      tryFrom (pack ⟨m, w⟩) = .ok ⟨m, w⟩) := by
  refine ⟨tryFrom_meta_cap, tryFrom_web_cap, ?_, ?_⟩
  · intro m w hm hw
    exact tryFrom_pack m w (le_of_eq hm) hw
  · intro m w hm hw
    exact tryFrom_pack m w hm (le_of_eq hw)

theorem claim2_witness :
    tryFrom (u64beEncode 1025) = .error (metaCapErr 1025)
  ∧ tryFrom (u64beEncode 0 ++ u64beEncode 104857601)
      = .error (webCapErr 104857601)
  ∧ tryFrom (pack ⟨List.replicate 1024 37, []⟩)
      = .ok ⟨List.replicate 1024 37, []⟩
  ∧ tryFrom (pack ⟨[], List.replicate 104857600 37⟩)
      = .ok ⟨[], List.replicate 104857600 37⟩ := by
  have h1 := claim2_cap_enforcement.1 (u64beEncode 1025) (by decide) (by decide)
  have h2 := claim2_cap_enforcement.2.1 (u64beEncode 0 ++ u64beEncode 104857601)
    (by decide) (by decide) (by decide) (by decide)
  have h3 := claim2_cap_enforcement.2.2.1 (List.replicate 1024 37) []
    (by unfold MAX_METADATA_SIZE; rw [List.length_replicate])
    (Nat.zero_le _)
  have h4 := claim2_cap_enforcement.2.2.2 [] (List.replicate 104857600 37)
    (Nat.zero_le _)
    (by unfold MAX_WEB_SIZE; rw [List.length_replicate])
  have e1 : u64beDecode ((u64beEncode 1025).take 8) = 1025 := by decide
  have e2 : u64beDecode ((((u64beEncode 0 ++ u64beEncode 104857601).drop 8).drop
      (u64beDecode ((u64beEncode 0 ++ u64beEncode 104857601).take 8))).take 8)
      = 104857601 := by decide
  rw [e1] at h1
  rw [e2] at h2
  exact ⟨h1, h2, h3, h4⟩

/-- C3: for every input slice shorter than its own declared field lengths
at any of the four read points (metadata length prefix, metadata bytes,
web length prefix, web bytes), `try_from` returns a format error.  The
embedding is a total function, so the result being a well-defined error
value also reflects that the source path performs only bounds-checked
reads (`read_u64`/`read_exact` on a `Cursor`), never a panic or an
out-of-bounds access. -/
theorem claim3_truncation_safety :
    (∀ state : List UInt8, state.length < 8 → tryFrom state = .error eofErr)
  ∧ (∀ state : List UInt8, 8 ≤ state.length →
      u64beDecode (state.take 8) ≤ MAX_METADATA_SIZE →
      state.length < 8 + u64beDecode (state.take 8) →
      tryFrom state = .error eofErr)
  ∧ (∀ state : List UInt8, 8 ≤ state.length →
      u64beDecode (state.take 8) ≤ MAX_METADATA_SIZE →
      8 + u64beDecode (state.take 8) ≤ state.length →
      state.length < 8 + u64beDecode (state.take 8) + 8 →
      tryFrom state = .error eofErr)
  ∧ (∀ state : List UInt8, 8 ≤ state.length →
      u64beDecode (state.take 8) ≤ MAX_METADATA_SIZE →
      8 + u64beDecode (state.take 8) + 8 ≤ state.length →
      u64beDecode (((state.drop 8).drop (u64beDecode (state.take 8))).take 8)
        ≤ MAX_WEB_SIZE →
      state.length < 8 + u64beDecode (state.take 8) + 8
        + u64beDecode (((state.drop 8).drop (u64beDecode (state.take 8))).take 8) →
      tryFrom state = .error eofErr) :=
  ⟨tryFrom_trunc_at_metalen, tryFrom_trunc_at_meta,
    tryFrom_trunc_at_weblen, tryFrom_trunc_at_web⟩

theorem claim3_witness :
    tryFrom ([] : List UInt8) = .error eofErr
  ∧ tryFrom (u64beEncode 5) = .error eofErr
  ∧ tryFrom (u64beEncode 1 ++ [7]) = .error eofErr
  ∧ tryFrom (u64beEncode 0 ++ u64beEncode 5) = .error eofErr :=
  ⟨claim3_truncation_safety.1 [] (by decide),
    claim3_truncation_safety.2.1 (u64beEncode 5) (by decide) (by decide)
      (by decide),
    claim3_truncation_safety.2.2.1 (u64beEncode 1 ++ [7]) (by decide)
      (by decide) (by decide) (by decide),
    claim3_truncation_safety.2.2.2 (u64beEncode 0 ++ u64beEncode 5) (by decide)
      (by decide) (by decide) (by decide) (by decide)⟩

/-- C4: `pack` returns the flat buffer that is exactly the concatenation
of the 8-byte big-endian metadata length, the metadata bytes, the 8-byte
big-endian web length and the web bytes; consequently the four segments
can be read back off the output at their fixed offsets and the total
length is `16 + len(metadata) + len(web)`. -/
theorem claim4_pack_layout (app : WebApp) :
    pack app
      = u64beEncode app.metadata.length ++ app.metadata
        ++ u64beEncode app.web.length ++ app.web
  ∧ (pack app).take 8 = u64beEncode app.metadata.length
  ∧ ((pack app).drop 8).take app.metadata.length = app.metadata
  ∧ (((pack app).drop 8).drop app.metadata.length).take 8
      = u64beEncode app.web.length
  ∧ (((pack app).drop 8).drop app.metadata.length).drop 8 = app.web
  ∧ (pack app).length = 16 + app.metadata.length + app.web.length := by
  have hassoc : pack app
      = u64beEncode app.metadata.length
        ++ (app.metadata ++ (u64beEncode app.web.length ++ app.web)) := by
    simp [pack]
  refine ⟨rfl, ?_, ?_, ?_, ?_, ?_⟩
  · rw [hassoc, List.take_left' (u64beEncode_length _)]
  · rw [hassoc, List.drop_left' (u64beEncode_length _),
      List.take_left' rfl]
  · rw [hassoc, List.drop_left' (u64beEncode_length _),
      List.drop_left' rfl, List.take_left' (u64beEncode_length _)]
  · rw [hassoc, List.drop_left' (u64beEncode_length _),
      List.drop_left' rfl, List.drop_left' (u64beEncode_length _)]
  · simp [pack, u64beEncode_length]
    omega

/-- C5: parsing performs no decompression or any other transformation of
the payload: whenever `try_from` succeeds, the `web` field of the result
is byte-for-byte the web payload segment of the input buffer (the declared
number of bytes following the two length prefixes and the metadata),
exactly as received. -/
theorem claim5_parse_web_verbatim (state : List UInt8) (app : WebApp)
    (h : tryFrom state = .ok app) :
    app.web = (((state.drop 8).drop (u64beDecode (state.take 8))).drop 8).take
      (u64beDecode (((state.drop 8).drop (u64beDecode (state.take 8))).take 8)) :=
  (tryFrom_ok_inv h).2

theorem claim5_witness :
    (⟨[1], [2, 3]⟩ : WebApp).web
      = ((((pack ⟨[1], [2, 3]⟩).drop 8).drop
            (u64beDecode ((pack ⟨[1], [2, 3]⟩).take 8))).drop 8).take
          (u64beDecode ((((pack ⟨[1], [2, 3]⟩).drop 8).drop
            (u64beDecode ((pack ⟨[1], [2, 3]⟩).take 8))).take 8)) :=
  claim5_parse_web_verbatim (pack ⟨[1], [2, 3]⟩) ⟨[1], [2, 3]⟩ (by decide)

/-- C10: `try_from` does not require the input to be fully consumed: a
buffer that parses successfully still parses to the same `WebApp` after
appending any trailing bytes, which are silently ignored. -/
theorem claim10_trailing_ignored (state extra : List UInt8) (app : WebApp)
    (h : tryFrom state = .ok app) :
    tryFrom (state ++ extra) = .ok app :=
  tryFrom_append extra h

theorem claim10_witness :
    tryFrom (pack ⟨[1], [2]⟩ ++ [9, 9, 9]) = .ok ⟨[1], [2]⟩ :=
  claim10_trailing_ignored (pack ⟨[1], [2]⟩) [9, 9, 9] ⟨[1], [2]⟩ (by decide)

/-- C6: for every `WebApp` whose `web` bytes decode to a well-formed
archive (any decoder behaviour `dec` with `dec w.web = .ok entries`) and
every requested path, `get_file` returns the content of the first entry
(in archive order) whose path compares equal to the requested path; when
no entry matches it returns a file-not-found error carrying the requested
path; and when the stored bytes are not a valid compressed archive
(`dec w.web = .error msg`) it returns an unpacking error, never a
file-not-found error. -/
theorem claim6_get_file_semantics
    (dec : List UInt8 → Except String (List ArchiveEntry))
    (w : WebApp) (p : String) :
    (∀ pre e post, dec w.web = .ok (pre ++ e :: post) →
      (∀ x ∈ pre, x.path ≠ some p) → e.path = some p →
      (get_file dec w p).1 = .ok e.content)
  ∧ (∀ entries, dec w.web = .ok entries → (∀ x ∈ entries, x.path ≠ some p) →
      (get_file dec w p).1 = .error (.FileNotFound p))
  ∧ (∀ msg, dec w.web = .error msg →
      (get_file dec w p).1 = .error (.UnpackingError msg)) := by
  refine ⟨?_, ?_, ?_⟩
  · intro pre e post hdec hpre he
    simp only [get_file, hdec]
    rw [findEntry_first p e pre post hpre he]
  · intro entries hdec hnone
    simp only [get_file, hdec]
    rw [findEntry_none p entries hnone]
  · intro msg hdec
    simp only [get_file, hdec]

theorem claim6_witness :
    (get_file (fun _ => .ok [⟨some "index.html", [60, 62]⟩]) ⟨[], [1]⟩
        "index.html").1 = .ok [60, 62]
  ∧ (get_file (fun _ => .ok [⟨some "index.html", [60, 62]⟩]) ⟨[], [1]⟩
        "missing.css").1 = .error (.FileNotFound "missing.css")
  ∧ (get_file (fun _ => .error "not an xz stream") ⟨[], [1]⟩
        "index.html").1 = .error (.UnpackingError "not an xz stream") :=
  ⟨(claim6_get_file_semantics (fun _ => .ok [⟨some "index.html", [60, 62]⟩])
      ⟨[], [1]⟩ "index.html").1 [] ⟨some "index.html", [60, 62]⟩ [] rfl
      (by simp) rfl,
    (claim6_get_file_semantics (fun _ => .ok [⟨some "index.html", [60, 62]⟩])
      ⟨[], [1]⟩ "missing.css").2.1 [⟨some "index.html", [60, 62]⟩] rfl
      (by decide),
    (claim6_get_file_semantics (fun _ => .error "not an xz stream")
      ⟨[], [1]⟩ "index.html").2.2 "not an xz stream" rfl⟩

/-- C7: every failure of `unpack` is reported as a `StoringError` wrapping
the underlying failure, and `StoringError` is a constructor distinct from
the format errors `UnpackingError` and `FileNotFound`, so a bad-input
failure and a bad-local-environment failure remain distinguishable by the
caller. -/
theorem claim7_unpack_storage_error
    (unpackFS : List UInt8 → String → Except String Unit)
    (w : WebApp) (dst : String) :
    (∀ e, unpackFS w.web dst = .error e →
      (unpackApp unpackFS w dst).1 = .error (.StoringError e))
  ∧ (∀ r, (unpackApp unpackFS w dst).1 = .error r → ∃ e, r = .StoringError e)
  ∧ (∀ m m2 p2, WebContractError.StoringError m ≠ .UnpackingError m2
      ∧ WebContractError.StoringError m ≠ .FileNotFound p2) := by
  refine ⟨?_, ?_, ?_⟩
  · intro e h
    simp only [unpackApp, h]
  · intro r h
    unfold unpackApp at h
    cases hfs : unpackFS w.web dst with
    | error e =>
      rw [hfs] at h
      simp only at h
      exact ⟨e, by injection h with h2; exact h2.symm⟩
    | ok u =>
      rw [hfs] at h
      exact absurd h (by simp)
  · intro m m2 p2
    exact ⟨by simp, by simp⟩

theorem claim7_witness :
    (unpackApp (fun _ _ => .error "permission denied") ⟨[], []⟩ "dst").1
      = .error (.StoringError "permission denied")
  ∧ WebContractError.StoringError "permission denied"
      ≠ .UnpackingError "permission denied"
  ∧ WebContractError.StoringError "permission denied"
      ≠ .FileNotFound "dst" :=
  ⟨(claim7_unpack_storage_error (fun _ _ => .error "permission denied")
      ⟨[], []⟩ "dst").1 "permission denied" rfl,
    ((claim7_unpack_storage_error (fun _ _ => .error "permission denied")
      ⟨[], []⟩ "dst").2.2 "permission denied" "permission denied" "dst").1,
    ((claim7_unpack_storage_error (fun _ _ => .error "permission denied")
      ⟨[], []⟩ "dst").2.2 "permission denied" "permission denied" "dst").2⟩

/-- C8: extraction is repeatable on the same `WebApp` value: each call to
`get_file` or `unpack` derives a fresh reader from the stored compressed
bytes, so a second `get_file` with the same path (run on the state the
first call returned) yields the identical result, and `unpack` after a
`get_file` behaves exactly as `unpack` on the original value — no
iteration state carries over between calls. -/
theorem claim8_repeatable_extraction
    (dec : List UInt8 → Except String (List ArchiveEntry))
    (unpackFS : List UInt8 → String → Except String Unit)
    (w : WebApp) (p : String) (dst : String) :
    (get_file dec ((get_file dec w p).2) p).1 = (get_file dec w p).1
  ∧ unpackApp unpackFS ((get_file dec w p).2) dst = unpackApp unpackFS w dst := by
  rw [get_file_state]
  exact ⟨rfl, rfl⟩

/-- C9: `unpack` and `get_file` leave both fields of the `WebApp`
unchanged: the state each operation hands back (the Rust methods take
`&mut self` but assign neither field) has `metadata` and `web`
byte-identical to their values before the call, whether the operation
succeeds or fails. -/
theorem claim9_fields_unchanged
    (dec : List UInt8 → Except String (List ArchiveEntry))
    (unpackFS : List UInt8 → String → Except String Unit)
    (w : WebApp) (p : String) (dst : String) :
    ((get_file dec w p).2.metadata = w.metadata
      ∧ (get_file dec w p).2.web = w.web)
  ∧ ((unpackApp unpackFS w dst).2.metadata = w.metadata
      ∧ (unpackApp unpackFS w dst).2.web = w.web) := by
  rw [get_file_state, unpackApp_state]
  exact ⟨⟨rfl, rfl⟩, ⟨rfl, rfl⟩⟩
